import Mathlib

/-!
# Shallow embedding of `src/app.py` (recipe-app)

A small multi-user recipe CRUD application: users register, log in,
and create/update/delete recipes they own; everyone can list recipes.

The embedding models the SQLite-backed state (`users` and `recipes`
tables) as Lean lists, the Flask session as an `Option Nat` holding the
`user_id` key, and each POST handler of `app.py` as a pure function from
the database state, the session and the submitted form fields to a
result record carrying the flashed message, the redirect target and the
updated state.

Modelling conventions:
* Python `str.strip()` is modelled by `pyStrip`, stripping the ASCII
  whitespace characters Python strips, defined over `List Char`.
* `werkzeug.security.generate_password_hash` / `check_password_hash`
  are modelled abstractly: hashing is an injective tagging function and
  verification is exact comparison against the hash of the candidate.
  (Salting is irrelevant to the properties proved here; the abstraction
  assumes no hash collisions.)
* SQLite `AUTOINCREMENT` ids and the `CURRENT_TIMESTAMP` default are
  modelled by counters in the `DB` record; the clock strictly increases
  at each insert, so "inserted later" means a larger `created_at`.
* `ORDER BY created_at DESC` is modelled by `List.insertionSort` with
  the reflexive descending relation on `created_at`; SQLite leaves the
  relative order of equal keys unspecified, and every property proved
  about the listing only concerns strictly distinct keys.
-/

/-- The ASCII whitespace characters stripped by Python `str.strip()`. -/
def isPySpace (c : Char) : Bool :=
  c == ' ' || c == '\t' || c == '\n' || c == '\r' || c == '\x0b' || c == '\x0c'

/-- Strip `isPySpace` characters from both ends of a character list. -/
def stripChars (l : List Char) : List Char :=
  ((l.dropWhile isPySpace).reverse.dropWhile isPySpace).reverse

/-- Model of Python `str.strip()` with no argument. -/
def pyStrip (s : String) : String :=
  String.mk (stripChars s.data)

/-- Model of `werkzeug.security.generate_password_hash`: an injective
one-way hash. The salt is omitted; verification is modelled below. -/
def generate_password_hash (p : String) : String :=
  "pbkdf2-sha256$" ++ p

/-- Model of `werkzeug.security.check_password_hash`: verification
succeeds exactly when the candidate password hashes to the stored hash. -/
def check_password_hash (h p : String) : Bool :=
  h == generate_password_hash p

/-- A row of the `users` table (`id`, `username`, `password_hash`). -/
structure User where
  id : Nat
  username : String
  password_hash : String
deriving Repr, DecidableEq

/-- A row of the `recipes` table. -/
structure Recipe where
  id : Nat
  user_id : Nat
  title : String
  description : String
  ingredients : String
  instructions : String
  prep_time : String
  created_at : Nat
deriving Repr, DecidableEq

/-- The database state: the two tables, the `AUTOINCREMENT` counters,
and the clock supplying `created_at` timestamps. -/
structure DB where
  users : List User
  recipes : List Recipe
  nextUserId : Nat
  nextRecipeId : Nat
  clock : Nat
deriving Repr, DecidableEq

/-- The freshly initialised database (`init_db`): both tables empty,
`AUTOINCREMENT` counters starting at 1. -/
def initDB : DB :=
  ⟨[], [], 1, 1, 0⟩

/-- Redirect targets (`url_for(...)` values) used by the handlers.
`loginPage` carries the optional `next` query parameter. -/
inductive Page where
  | home
  | registerPage
  | loginPage (next : Option String)
  | recipesListPage
  | recipeNewPage
  | recipeEditPage (id : Nat)
  | recipeDetailPage (id : Nat)
deriving Repr, DecidableEq

/-- The observable outcome of a POST handler: the flashed
`(message, category)` pair, the redirect target, and the database and
session after the call. -/
structure HResult where
  flash : String × String
  redirect : Page
  db : DB
  sess : Option Nat
deriving Repr, DecidableEq

/-- POST branch of `register` (`app.py` lines 103-121): trim the
username, reject empty fields, reject a taken username, otherwise
insert the user (hashing the password as submitted) and log them in. -/
def registerPost (db : DB) (sess : Option Nat) (username password : String) :
    HResult :=
  let u := pyStrip username
  if u = "" ∨ password = "" then
    ⟨("Please enter both username and password.", "danger"),
      Page.registerPage, db, sess⟩
  else if (db.users.find? (fun x => x.username == u)).isSome then
    ⟨("Username already taken.", "danger"), Page.registerPage, db, sess⟩
  else
    let pw_hash := generate_password_hash password
    let user : User := ⟨db.nextUserId, u, pw_hash⟩
    ⟨("Registration successful. You're logged in.", "success"), Page.home,
      { db with users := db.users ++ [user], nextUserId := db.nextUserId + 1 },
      some db.nextUserId⟩

/-- POST branch of `login` (`app.py` lines 123-136): trim the username,
look it up, verify the password against the stored hash; the same flash
and redirect on a missing user and on a failed verification. -/
def loginPost (db : DB) (sess : Option Nat) (username password : String) :
    HResult :=
  let u := pyStrip username
  match db.users.find? (fun x => x.username == u) with
  | none =>
      ⟨("Invalid username or password.", "danger"), Page.loginPage none,
        db, sess⟩
  | some user =>
      if check_password_hash user.password_hash password then
        ⟨("Logged in successfully.", "success"), Page.home, db, some user.id⟩
      else
        ⟨("Invalid username or password.", "danger"), Page.loginPage none,
          db, sess⟩

/-- `logout` (`app.py` lines 138-142): clear the session. -/
def logoutGet (db : DB) (_sess : Option Nat) : HResult :=
  ⟨("You have been logged out.", "info"), Page.home, db, none⟩

/-- POST branch of `recipe_new` (`app.py` lines 153-172), including the
`login_required` gate: redirect to login when anonymous, reject an
empty (post-trim) title, otherwise insert a recipe owned by the session
user with a fresh id and the current timestamp. -/
def recipeNewPost (db : DB) (sess : Option Nat)
    (title description ingredients instructions prep_time : String) :
    HResult :=
  match sess with
  | none =>
      ⟨("Please log in to access that page.", "warning"),
        Page.loginPage (some "recipe_new"), db, none⟩
  | some uid =>
      let t := pyStrip title
      if t = "" then
        ⟨("Title is required.", "danger"), Page.recipeNewPage, db, some uid⟩
      else
        let r : Recipe :=
          ⟨db.nextRecipeId, uid, t, pyStrip description, pyStrip ingredients,
            pyStrip instructions, pyStrip prep_time, db.clock⟩
        ⟨("Recipe created.", "success"), Page.recipesListPage,
          { db with recipes := db.recipes ++ [r],
                    nextRecipeId := db.nextRecipeId + 1,
                    clock := db.clock + 1 },
          some uid⟩

/-- POST branch of `recipe_edit` (`app.py` lines 183-211), including the
`login_required` gate: not-found and ownership checks first, then the
title check, then an UPDATE overwriting the five mutable fields of every
row whose id matches. -/
def recipeEditPost (db : DB) (sess : Option Nat) (recipe_id : Nat)
    (title description ingredients instructions prep_time : String) :
    HResult :=
  match sess with
  | none =>
      ⟨("Please log in to access that page.", "warning"),
        Page.loginPage (some "recipe_edit"), db, none⟩
  | some uid =>
      match db.recipes.find? (fun r => r.id == recipe_id) with
      | none =>
          ⟨("Recipe not found.", "danger"), Page.recipesListPage, db, some uid⟩
      | some recipe =>
          if recipe.user_id ≠ uid then
            ⟨("You are not allowed to edit this recipe.", "danger"),
              Page.recipesListPage, db, some uid⟩
          else
            let t := pyStrip title
            if t = "" then
              ⟨("Title is required.", "danger"), Page.recipeEditPage recipe_id,
                db, some uid⟩
            else
              let upd : Recipe → Recipe := fun s =>
                if s.id == recipe_id then
                  { s with title := t, description := pyStrip description,
                           ingredients := pyStrip ingredients,
                           instructions := pyStrip instructions,
                           prep_time := pyStrip prep_time }
                else s
              ⟨("Recipe updated.", "success"), Page.recipeDetailPage recipe_id,
                { db with recipes := db.recipes.map upd }, some uid⟩

/-- `recipe_delete` (`app.py` lines 213-225), including the
`login_required` gate: not-found and ownership checks, then a DELETE of
every row whose id matches. -/
def recipeDeletePost (db : DB) (sess : Option Nat) (recipe_id : Nat) :
    HResult :=
  match sess with
  | none =>
      ⟨("Please log in to access that page.", "warning"),
        Page.loginPage (some "recipe_delete"), db, none⟩
  | some uid =>
      match db.recipes.find? (fun r => r.id == recipe_id) with
      | none =>
          ⟨("Recipe not found.", "danger"), Page.recipesListPage, db, some uid⟩
      | some recipe =>
          if recipe.user_id ≠ uid then
            ⟨("You are not allowed to delete this recipe.", "danger"),
              Page.recipesListPage, db, some uid⟩
          else
            ⟨("Recipe deleted.", "success"), Page.recipesListPage,
              { db with recipes := db.recipes.filter (fun r => ¬ r.id = recipe_id) },
              some uid⟩

/-- The rows of the `SELECT r.*, u.username FROM recipes r JOIN users u
ON r.user_id = u.id` join, in table order. -/
def joinRows (db : DB) : List (Recipe × String) :=
  db.recipes.filterMap fun r =>
    (db.users.find? (fun x => x.id == r.user_id)).map fun x => (r, x.username)

/-- The descending `created_at` order used by the listing queries. -/
def listingRel (a b : Recipe × String) : Prop :=
  b.1.created_at ≤ a.1.created_at

instance : DecidableRel listingRel := fun a b =>
  inferInstanceAs (Decidable (b.1.created_at ≤ a.1.created_at))

instance : IsTotal (Recipe × String) listingRel :=
  ⟨fun a b => (Nat.le_total b.1.created_at a.1.created_at).imp id id⟩

instance : IsTrans (Recipe × String) listingRel :=
  ⟨fun _ _ _ h h' => Nat.le_trans h' h⟩

/-- The query behind `recipes_list` and `home` (`app.py` lines 100 and
150): the join ordered by `created_at` descending. -/
def recipesListQuery (db : DB) : List (Recipe × String) :=
  List.insertionSort listingRel (joinRows db)

/-- Concrete database fixture used by witnesses: two users and one
recipe owned by user 1. -/
def dbW : DB :=
  ⟨[⟨1, "alice", generate_password_hash "pw1"⟩,
    ⟨2, "bob", generate_password_hash "pw2"⟩],
   [⟨1, 1, "Soup", "", "", "", "", 0⟩], 3, 2, 1⟩

/-- Concrete database fixture used by witnesses: two users and two
recipes with distinct creation timestamps. -/
def dbW2 : DB :=
  ⟨[⟨1, "alice", generate_password_hash "pw1"⟩,
    ⟨2, "bob", generate_password_hash "pw2"⟩],
   [⟨1, 1, "Soup", "", "", "", "", 0⟩, ⟨2, 2, "Stew", "", "", "", "", 1⟩],
   3, 3, 2⟩

/-! ## Basic facts about the strip model -/

theorem dropWhile_cons_head {p : Char → Bool} :
    ∀ (l : List Char) (a : Char) (l' : List Char),
      List.dropWhile p l = a :: l' → p a = false := by
  intro l
  induction l with
  | nil => intro a l' h; simp [List.dropWhile] at h
  | cons b m ih =>
      intro a l' h
      rw [List.dropWhile_cons] at h
      by_cases hb : p b
      · rw [if_pos hb] at h; exact ih a l' h
      · rw [if_neg hb] at h
        cases h
        simpa using hb

theorem stripChars_append (l : List Char) :
    ∃ t, stripChars l ++ t = List.dropWhile isPySpace l := by
  obtain ⟨t, ht⟩ :=
    List.dropWhile_suffix (l := (List.dropWhile isPySpace l).reverse) isPySpace
  refine ⟨t.reverse, ?_⟩
  have h2 := congrArg List.reverse ht
  rw [List.reverse_append, List.reverse_reverse] at h2
  simpa [stripChars] using h2

theorem dropWhile_stripChars (l : List Char) :
    List.dropWhile isPySpace (stripChars l) = stripChars l := by
  cases hsc : stripChars l with
  | nil => simp
  | cons a rest =>
      obtain ⟨t, ht⟩ := stripChars_append l
      rw [hsc, List.cons_append] at ht
      have ha : isPySpace a = false :=
        dropWhile_cons_head l a (rest ++ t) ht.symm
      rw [List.dropWhile_cons, ha]
      simp

theorem stripChars_idem (l : List Char) :
    stripChars (stripChars l) = stripChars l := by
  have hrev : (stripChars l).reverse =
      List.dropWhile isPySpace ((List.dropWhile isPySpace l).reverse) := by
    simp [stripChars]
  show ((List.dropWhile isPySpace (stripChars l)).reverse.dropWhile
      isPySpace).reverse = stripChars l
  rw [dropWhile_stripChars, hrev, List.dropWhile_idempotent]
  rfl

theorem pyStrip_idem (s : String) : pyStrip (pyStrip s) = pyStrip s := by
  show String.mk (stripChars (stripChars s.data)) = String.mk (stripChars s.data)
  rw [stripChars_idem]

/-! ## The application state machine -/

/-- The full application state: the database plus the session. -/
structure AppState where
  db : DB
  sess : Option Nat
deriving Repr, DecidableEq

/-- The state after `init_db` and before any request. -/
def initState : AppState := ⟨initDB, none⟩

/-- States reachable from the initial state through the POST handlers
(and `logout`); the GET pages do not change the state. -/
inductive Reachable : AppState → Prop where
  | init : Reachable initState
  | registerStep (st : AppState) (u p : String) : Reachable st →
      Reachable ⟨(registerPost st.db st.sess u p).db,
                 (registerPost st.db st.sess u p).sess⟩
  | loginStep (st : AppState) (u p : String) : Reachable st →
      Reachable ⟨(loginPost st.db st.sess u p).db,
                 (loginPost st.db st.sess u p).sess⟩
  | logoutStep (st : AppState) : Reachable st →
      Reachable ⟨(logoutGet st.db st.sess).db,
                 (logoutGet st.db st.sess).sess⟩
  | createStep (st : AppState) (t d ing ins pt : String) : Reachable st →
      Reachable ⟨(recipeNewPost st.db st.sess t d ing ins pt).db,
                 (recipeNewPost st.db st.sess t d ing ins pt).sess⟩
  | editStep (st : AppState) (rid : Nat) (t d ing ins pt : String) :
      Reachable st →
      Reachable ⟨(recipeEditPost st.db st.sess rid t d ing ins pt).db,
                 (recipeEditPost st.db st.sess rid t d ing ins pt).sess⟩
  | deleteStep (st : AppState) (rid : Nat) : Reachable st →
      Reachable ⟨(recipeDeletePost st.db st.sess rid).db,
                 (recipeDeletePost st.db st.sess rid).sess⟩

/-- Database well-formedness: referential integrity of recipes,
non-empty titles, stored usernames strip-fixed, non-empty and distinct,
distinct user ids all below the `AUTOINCREMENT` counter. -/
def dbInv (db : DB) : Prop :=
  (∀ r ∈ db.recipes, ∃ x ∈ db.users, x.id = r.user_id) ∧
  (∀ r ∈ db.recipes, r.title ≠ "") ∧
  (∀ x ∈ db.users, pyStrip x.username = x.username ∧ x.username ≠ "") ∧
  (db.users.map User.username).Nodup ∧
  (db.users.map User.id).Nodup ∧
  (∀ x ∈ db.users, x.id < db.nextUserId)

/-- A session, when logged in, refers to an existing user. -/
def sessInv (db : DB) : Option Nat → Prop
  | none => True
  | some uid => ∃ x ∈ db.users, x.id = uid

instance (db : DB) : (o : Option Nat) → Decidable (sessInv db o)
  | none => isTrue trivial
  | some uid => inferInstanceAs (Decidable (∃ x ∈ db.users, x.id = uid))

/-- The inductive invariant of the application state machine. -/
def stInv (st : AppState) : Prop :=
  dbInv st.db ∧ sessInv st.db st.sess

instance (db : DB) : Decidable (dbInv db) := by
  unfold dbInv; infer_instance

instance (st : AppState) : Decidable (stInv st) := by
  unfold stInv; infer_instance

/-! ## Preservation of the invariant by each operation -/

theorem stInv_registerPost (db : DB) (sess : Option Nat) (u p : String)
    (h : stInv ⟨db, sess⟩) :
    stInv ⟨(registerPost db sess u p).db, (registerPost db sess u p).sess⟩ := by
  obtain ⟨⟨hown, htitle, huser, hunames, hids, hlt⟩, hsess⟩ := h
  simp only [registerPost]
  split_ifs with h1 h2
  · exact ⟨⟨hown, htitle, huser, hunames, hids, hlt⟩, hsess⟩
  · exact ⟨⟨hown, htitle, huser, hunames, hids, hlt⟩, hsess⟩
  · push_neg at h1
    rw [List.find?_isSome] at h2
    push_neg at h2
    have hnotin : pyStrip u ∉ db.users.map User.username := by
      intro hmem
      obtain ⟨x, hx, hxeq⟩ := List.mem_map.mp hmem
      exact h2 x hx (by simp [hxeq])
    have hnotid : db.nextUserId ∉ db.users.map User.id := by
      intro hmem
      obtain ⟨x, hx, hxeq⟩ := List.mem_map.mp hmem
      exact absurd hxeq (Nat.ne_of_lt (hlt x hx))
    refine ⟨⟨?_, htitle, ?_, ?_, ?_, ?_⟩, ?_⟩
    · intro r hr
      obtain ⟨x, hx, hxid⟩ := hown r hr
      exact ⟨x, List.mem_append_left _ hx, hxid⟩
    · intro x hx
      rcases List.mem_append.mp hx with hx | hx
      · exact huser x hx
      · simp only [List.mem_singleton] at hx
        subst hx
        exact ⟨pyStrip_idem u, h1.1⟩
    · rw [List.map_append]
      rw [List.nodup_append]
      refine ⟨hunames, by simp, ?_⟩
      intro a ha hb
      simp only [List.map_cons, List.map_nil, List.mem_singleton] at hb
      subst hb
      exact hnotin ha
    · rw [List.map_append]
      rw [List.nodup_append]
      refine ⟨hids, by simp, ?_⟩
      intro a ha hb
      simp only [List.map_cons, List.map_nil, List.mem_singleton] at hb
      subst hb
      exact hnotid ha
    · intro x hx
      rcases List.mem_append.mp hx with hx | hx
      · exact Nat.lt_succ_of_lt (hlt x hx)
      · simp only [List.mem_singleton] at hx
        subst hx
        exact Nat.lt_succ_self _
    · exact ⟨⟨db.nextUserId, pyStrip u, generate_password_hash p⟩,
        List.mem_append_right _ (by simp), rfl⟩

theorem stInv_loginPost (db : DB) (sess : Option Nat) (u p : String)
    (h : stInv ⟨db, sess⟩) :
    stInv ⟨(loginPost db sess u p).db, (loginPost db sess u p).sess⟩ := by
  obtain ⟨hdb, hsess⟩ := h
  cases hfind : db.users.find? (fun x => x.username == pyStrip u) with
  | none =>
      simp only [loginPost, hfind]
      exact ⟨hdb, hsess⟩
  | some user =>
      simp only [loginPost, hfind]
      split_ifs with hc
      · exact ⟨hdb, ⟨user, List.mem_of_find?_eq_some hfind, rfl⟩⟩
      · exact ⟨hdb, hsess⟩

theorem stInv_logoutGet (db : DB) (sess : Option Nat)
    (h : stInv ⟨db, sess⟩) :
    stInv ⟨(logoutGet db sess).db, (logoutGet db sess).sess⟩ :=
  ⟨h.1, trivial⟩

theorem stInv_recipeNewPost (db : DB) (sess : Option Nat)
    (t d ing ins pt : String) (h : stInv ⟨db, sess⟩) :
    stInv ⟨(recipeNewPost db sess t d ing ins pt).db,
           (recipeNewPost db sess t d ing ins pt).sess⟩ := by
  obtain ⟨⟨hown, htitle, huser, hunames, hids, hlt⟩, hsess⟩ := h
  cases sess with
  | none => exact ⟨⟨hown, htitle, huser, hunames, hids, hlt⟩, trivial⟩
  | some uid =>
      simp only [recipeNewPost]
      split_ifs with h1
      · exact ⟨⟨hown, htitle, huser, hunames, hids, hlt⟩, hsess⟩
      · refine ⟨⟨?_, ?_, huser, hunames, hids, hlt⟩, hsess⟩
        · intro r hr
          rcases List.mem_append.mp hr with hr | hr
          · exact hown r hr
          · simp only [List.mem_singleton] at hr
            subst hr
            exact hsess
        · intro r hr
          rcases List.mem_append.mp hr with hr | hr
          · exact htitle r hr
          · simp only [List.mem_singleton] at hr
            subst hr
            exact h1

theorem stInv_recipeEditPost (db : DB) (sess : Option Nat) (rid : Nat)
    (t d ing ins pt : String) (h : stInv ⟨db, sess⟩) :
    stInv ⟨(recipeEditPost db sess rid t d ing ins pt).db,
           (recipeEditPost db sess rid t d ing ins pt).sess⟩ := by
  obtain ⟨⟨hown, htitle, huser, hunames, hids, hlt⟩, hsess⟩ := h
  cases sess with
  | none => exact ⟨⟨hown, htitle, huser, hunames, hids, hlt⟩, trivial⟩
  | some uid =>
      cases hfind : db.recipes.find? (fun r => r.id == rid) with
      | none =>
          simp only [recipeEditPost, hfind]
          exact ⟨⟨hown, htitle, huser, hunames, hids, hlt⟩, hsess⟩
      | some recipe =>
          simp only [recipeEditPost, hfind]
          split_ifs with h2 h3
          · exact ⟨⟨hown, htitle, huser, hunames, hids, hlt⟩, hsess⟩
          · exact ⟨⟨hown, htitle, huser, hunames, hids, hlt⟩, hsess⟩
          · refine ⟨⟨?_, ?_, huser, hunames, hids, hlt⟩, hsess⟩
            · intro r' hr'
              obtain ⟨s, hs, rfl⟩ := List.mem_map.mp hr'
              by_cases hid : (s.id == rid) = true
              · simpa [hid] using hown s hs
              · simpa [hid] using hown s hs
            · intro r' hr'
              obtain ⟨s, hs, rfl⟩ := List.mem_map.mp hr'
              by_cases hid : (s.id == rid) = true
              · simpa [hid] using h3
              · simpa [hid] using htitle s hs

theorem stInv_recipeDeletePost (db : DB) (sess : Option Nat) (rid : Nat)
    (h : stInv ⟨db, sess⟩) :
    stInv ⟨(recipeDeletePost db sess rid).db,
           (recipeDeletePost db sess rid).sess⟩ := by
  obtain ⟨⟨hown, htitle, huser, hunames, hids, hlt⟩, hsess⟩ := h
  cases sess with
  | none => exact ⟨⟨hown, htitle, huser, hunames, hids, hlt⟩, trivial⟩
  | some uid =>
      cases hfind : db.recipes.find? (fun r => r.id == rid) with
      | none =>
          simp only [recipeDeletePost, hfind]
          exact ⟨⟨hown, htitle, huser, hunames, hids, hlt⟩, hsess⟩
      | some recipe =>
          simp only [recipeDeletePost, hfind]
          split_ifs with h2
          · exact ⟨⟨hown, htitle, huser, hunames, hids, hlt⟩, hsess⟩
          · refine ⟨⟨?_, ?_, huser, hunames, hids, hlt⟩, hsess⟩
            · intro r hr
              exact hown r (List.mem_of_mem_filter hr)
            · intro r hr
              exact htitle r (List.mem_of_mem_filter hr)

/-- Every reachable application state satisfies the invariant. -/
theorem reachable_stInv (st : AppState) (h : Reachable st) : stInv st := by
  induction h with
  | init => decide
  | registerStep st u p _ ih => exact stInv_registerPost st.db st.sess u p ih
  | loginStep st u p _ ih => exact stInv_loginPost st.db st.sess u p ih
  | logoutStep st _ ih => exact stInv_logoutGet st.db st.sess ih
  | createStep st t d ing ins pt _ ih =>
      exact stInv_recipeNewPost st.db st.sess t d ing ins pt ih
  | editStep st rid t d ing ins pt _ ih =>
      exact stInv_recipeEditPost st.db st.sess rid t d ing ins pt ih
  | deleteStep st rid _ ih => exact stInv_recipeDeletePost st.db st.sess rid ih

/-! ## Helper lemmas -/

theorem filter_username_eq_singleton (l : List User)
    (hnd : (l.map User.username).Nodup) (x : User) (hx : x ∈ l) :
    l.filter (fun y => y.username == x.username) = [x] := by
  induction l with
  | nil => cases hx
  | cons a l ih =>
      rw [List.map_cons, List.nodup_cons] at hnd
      rcases List.mem_cons.mp hx with rfl | hx
      · rw [List.filter_cons_of_pos (by simp)]
        have : l.filter (fun y => y.username == x.username) = [] := by
          rw [List.filter_eq_nil_iff]
          intro y hy hpy
          exact hnd.1 (List.mem_map.mpr ⟨y, hy, beq_iff_eq.mp hpy⟩)
        rw [this]
      · have hne : (a.username == x.username) = false := by
          rw [beq_eq_false_iff_ne]
          intro heq
          exact hnd.1 (heq ▸ List.mem_map.mpr ⟨x, hx, rfl⟩)
        rw [List.filter_cons_of_neg (by simp [hne])]
        exact ih hnd.2 hx

theorem generate_password_hash_inj (p q : String)
    (h : generate_password_hash p = generate_password_hash q) : p = q := by
  unfold generate_password_hash at h
  have h2 := congrArg String.data h
  rw [String.data_append, String.data_append] at h2
  exact String.ext (List.append_cancel_left h2)

theorem check_password_hash_iff (p q : String) :
    check_password_hash (generate_password_hash p) q = true ↔ p = q := by
  unfold check_password_hash
  rw [beq_iff_eq]
  exact ⟨generate_password_hash_inj p q, fun h => h ▸ rfl⟩

theorem mem_joinRows (db : DB) (hnd : (db.users.map User.id).Nodup)
    (r : Recipe) (x : User) (hr : r ∈ db.recipes) (hx : x ∈ db.users)
    (hid : x.id = r.user_id) :
    (r, x.username) ∈ joinRows db := by
  have hsome : (db.users.find? (fun y => y.id == r.user_id)).isSome := by
    rw [List.find?_isSome]
    exact ⟨x, hx, by simp [hid]⟩
  obtain ⟨y, hy⟩ := Option.isSome_iff_exists.mp hsome
  have hymem : y ∈ db.users := List.mem_of_find?_eq_some hy
  have hyid : y.id = r.user_id := by
    have hyp := List.find?_some hy
    simpa using hyp
  have hxy : y = x := List.inj_on_of_nodup_map hnd hymem hx (by rw [hyid, hid])
  unfold joinRows
  rw [List.mem_filterMap]
  exact ⟨r, hr, by rw [hy, hxy, Option.map_some']⟩

/-! ## Claim theorems -/

/-- C1: for every stored recipe and every authenticated session user who
is not its owner, both the edit and the delete handler refuse with the
"not allowed" (Forbidden) flash, redirect to the listing, and leave the
database — in particular the recipe's row — completely unchanged. -/
theorem recipe_mutation_forbidden_for_nonowner (db : DB) (uid rid : Nat)
    (r : Recipe) (t d ing ins pt : String)
    (hfind : db.recipes.find? (fun s => s.id == rid) = some r)
    (hne : r.user_id ≠ uid) :
    recipeEditPost db (some uid) rid t d ing ins pt =
      ⟨("You are not allowed to edit this recipe.", "danger"),
        Page.recipesListPage, db, some uid⟩ ∧
    recipeDeletePost db (some uid) rid =
      ⟨("You are not allowed to delete this recipe.", "danger"),
        Page.recipesListPage, db, some uid⟩ := by
  constructor
  · simp only [recipeEditPost, hfind]
    rw [if_pos hne]
  · simp only [recipeDeletePost, hfind]
    rw [if_pos hne]

/-- Witness for C1: user 2 ("bob") attempts to edit and delete recipe 1,
owned by user 1 ("alice"). -/
theorem recipe_mutation_forbidden_for_nonowner_witness :
    dbW.recipes.find? (fun s => s.id == 1) = some ⟨1, 1, "Soup", "", "", "", "", 0⟩ ∧
    (1 : Nat) ≠ 2 ∧
    (recipeEditPost dbW (some 2) 1 "T" "d" "i" "s" "p" =
      ⟨("You are not allowed to edit this recipe.", "danger"),
        Page.recipesListPage, dbW, some 2⟩ ∧
    recipeDeletePost dbW (some 2) 1 =
      ⟨("You are not allowed to delete this recipe.", "danger"),
        Page.recipesListPage, dbW, some 2⟩) :=
  ⟨by decide, by decide,
    recipe_mutation_forbidden_for_nonowner dbW 2 1 ⟨1, 1, "Soup", "", "", "", "", 0⟩
      "T" "d" "i" "s" "p" (by decide) (by decide)⟩

/-- C2: with no authenticated user in the session, each mutating handler
(create, update, delete) flashes a warning, redirects to the login flow
carrying the originally requested endpoint, and leaves the database
unchanged — the underlying operation never executes. -/
theorem mutations_redirect_to_login_when_anonymous
    (db : DB) (rid : Nat) (t d ing ins pt : String) :
    recipeNewPost db none t d ing ins pt =
      ⟨("Please log in to access that page.", "warning"),
        Page.loginPage (some "recipe_new"), db, none⟩ ∧
    recipeEditPost db none rid t d ing ins pt =
      ⟨("Please log in to access that page.", "warning"),
        Page.loginPage (some "recipe_edit"), db, none⟩ ∧
    recipeDeletePost db none rid =
      ⟨("Please log in to access that page.", "warning"),
        Page.loginPage (some "recipe_delete"), db, none⟩ :=
  ⟨rfl, rfl, rfl⟩

/-- C6: an authenticated create whose title is empty after trimming is
rejected with the "Title is required." flash and inserts nothing: the
database is unchanged. -/
theorem create_empty_title_rejected (db : DB) (uid : Nat)
    (t d ing ins pt : String) (h : pyStrip t = "") :
    recipeNewPost db (some uid) t d ing ins pt =
      ⟨("Title is required.", "danger"), Page.recipeNewPage, db, some uid⟩ := by
  simp only [recipeNewPost]
  rw [if_pos h]

/-- Witness for C6: a whitespace-only title is rejected. -/
theorem create_empty_title_rejected_witness :
    pyStrip "   " = "" ∧
    recipeNewPost dbW (some 1) "   " "d" "i" "s" "p" =
      ⟨("Title is required.", "danger"), Page.recipeNewPage, dbW, some 1⟩ :=
  ⟨by decide, create_empty_title_rejected dbW 1 "   " "d" "i" "s" "p" (by decide)⟩

/-- C8: every update call — whatever its outcome — preserves the `id`,
`user_id` and `created_at` of every recipe row: the identity-field
projection of the recipes table is unchanged, so ownership is never
transferred and `created_at` is only ever set at creation. -/
theorem update_preserves_identity_fields (db : DB) (sess : Option Nat)
    (rid : Nat) (t d ing ins pt : String) :
    (recipeEditPost db sess rid t d ing ins pt).db.recipes.map
        (fun r => (r.id, r.user_id, r.created_at)) =
      db.recipes.map (fun r => (r.id, r.user_id, r.created_at)) := by
  cases sess with
  | none => rfl
  | some uid =>
      cases hfind : db.recipes.find? (fun r => r.id == rid) with
      | none =>
          simp only [recipeEditPost, hfind]
      | some recipe =>
          simp only [recipeEditPost, hfind]
          split_ifs with h2 h3
          · rfl
          · rfl
          · rw [List.map_map]
            apply List.map_congr_left
            intro a _
            by_cases hid : (a.id == rid) = true
            · simp [Function.comp, hid]
            · simp [Function.comp, hid]

/-- C3: a login with a wrong password for an existing username and a
login for a nonexistent username produce identical results — the same
flash, the same redirect, and unchanged database and session — so the
caller cannot tell which check failed. -/
theorem login_failure_indistinguishable (db : DB) (sess : Option Nat)
    (u1 p1 u2 p2 : String) (x : User)
    (h1 : db.users.find? (fun y => y.username == pyStrip u1) = some x)
    (h2 : check_password_hash x.password_hash p1 = false)
    (h3 : db.users.find? (fun y => y.username == pyStrip u2) = none) :
    loginPost db sess u1 p1 = loginPost db sess u2 p2 ∧
    loginPost db sess u1 p1 =
      ⟨("Invalid username or password.", "danger"), Page.loginPage none,
        db, sess⟩ := by
  have hfail : loginPost db sess u1 p1 =
      ⟨("Invalid username or password.", "danger"), Page.loginPage none,
        db, sess⟩ := by
    simp only [loginPost, h1, h2]
    rfl
  have hnone : loginPost db sess u2 p2 =
      ⟨("Invalid username or password.", "danger"), Page.loginPage none,
        db, sess⟩ := by
    simp only [loginPost, h3]
  exact ⟨hfail.trans hnone.symm, hfail⟩

/-- Witness for C3: wrong password for "alice" vs. unknown "nobody". -/
theorem login_failure_indistinguishable_witness :
    dbW.users.find? (fun y => y.username == pyStrip "alice") =
      some ⟨1, "alice", generate_password_hash "pw1"⟩ ∧
    check_password_hash (generate_password_hash "pw1") "wrong" = false ∧
    dbW.users.find? (fun y => y.username == pyStrip "nobody") = none ∧
    (loginPost dbW none "alice" "wrong" = loginPost dbW none "nobody" "pw9" ∧
    loginPost dbW none "alice" "wrong" =
      ⟨("Invalid username or password.", "danger"), Page.loginPage none,
        dbW, none⟩) :=
  ⟨by decide, by decide, by decide,
    login_failure_indistinguishable dbW none "alice" "wrong" "nobody" "pw9"
      ⟨1, "alice", generate_password_hash "pw1"⟩
      (by decide) (by decide) (by decide)⟩

/-- Counterexample to C4 as stated: username "alice" already exists in
`dbW`, yet `register("alice", "")` does not fail with the conflict
error — the empty-field validation fires first. -/
theorem register_conflict_counterexample :
    (∃ x ∈ dbW.users, x.username = "alice") ∧
    (registerPost dbW none "alice" "").flash =
      ("Please enter both username and password.", "danger") ∧
    (registerPost dbW none "alice" "").flash ≠
      ("Username already taken.", "danger") := by decide

/-- C4 (amended): if a user row with username `u` exists and the
submitted password is non-empty, `register(u, password)` fails with the
conflict ("Username already taken.") error, leaves the database
unchanged, and afterwards exactly one user row with username `u`
exists. -/
theorem register_existing_username_conflict (db : DB) (sess : Option Nat)
    (u p : String) (x : User) (hinv : dbInv db)
    (hx : x ∈ db.users) (hu : x.username = u) (hp : p ≠ "") :
    registerPost db sess u p =
      ⟨("Username already taken.", "danger"), Page.registerPage, db, sess⟩ ∧
    ((registerPost db sess u p).db.users.filter
        (fun y => y.username == u)).length = 1 := by
  obtain ⟨-, -, huser, hunames, -, -⟩ := hinv
  have hstrip : pyStrip u = u := hu ▸ (huser x hx).1
  have hune : u ≠ "" := hu ▸ (huser x hx).2
  have hres : registerPost db sess u p =
      ⟨("Username already taken.", "danger"), Page.registerPage, db, sess⟩ := by
    simp only [registerPost, hstrip]
    rw [if_neg (by simp [hune, hp])]
    rw [if_pos]
    rw [List.find?_isSome]
    exact ⟨x, hx, by simp [hu]⟩
  refine ⟨hres, ?_⟩
  rw [hres]
  have := filter_username_eq_singleton db.users hunames x hx
  rw [hu] at this
  simp only [this]
  rfl

/-- Witness for C4 (amended): re-registering "alice" with a non-empty
password is refused with the conflict error and "alice" stays unique. -/
theorem register_existing_username_conflict_witness :
    dbInv dbW ∧
    (⟨1, "alice", generate_password_hash "pw1"⟩ : User) ∈ dbW.users ∧
    ("alice" : String) ≠ "" ∧ ("other" : String) ≠ "" ∧
    (registerPost dbW none "alice" "other" =
      ⟨("Username already taken.", "danger"), Page.registerPage, dbW, none⟩ ∧
    ((registerPost dbW none "alice" "other").db.users.filter
        (fun y => y.username == "alice")).length = 1) :=
  ⟨by decide, by decide, by decide, by decide,
    register_existing_username_conflict dbW none "alice" "other"
      ⟨1, "alice", generate_password_hash "pw1"⟩
      (by decide) (by decide) (by decide) (by decide)⟩

/-- C5: in every state reachable from the empty store through the
operations (register, login, logout, create, update, delete), every
persisted recipe's `user_id` references an existing user row and every
persisted recipe's title is non-empty. -/
theorem recipe_invariant_reachable (st : AppState) (h : Reachable st) :
    ∀ r ∈ st.db.recipes,
      (∃ x ∈ st.db.users, x.id = r.user_id) ∧ r.title ≠ "" := by
  obtain ⟨⟨hown, htitle, -, -, -, -⟩, -⟩ := reachable_stInv st h
  exact fun r hr => ⟨hown r hr, htitle r hr⟩

/-- Witness for C5: the state reached by registering "alice" and
creating the recipe "Soup" satisfies the invariant. -/
theorem recipe_invariant_reachable_witness :
    Reachable ⟨⟨[⟨1, "alice", generate_password_hash "pw1"⟩],
                [⟨1, 1, "Soup", "", "", "", "", 0⟩], 2, 2, 1⟩, some 1⟩ ∧
    ∀ r ∈ ([⟨1, 1, "Soup", "", "", "", "", 0⟩] : List Recipe),
      (∃ x ∈ [(⟨1, "alice", generate_password_hash "pw1"⟩ : User)],
        x.id = r.user_id) ∧ r.title ≠ "" := by
  have h1 : Reachable ⟨(registerPost initState.db initState.sess "alice" "pw1").db,
      (registerPost initState.db initState.sess "alice" "pw1").sess⟩ :=
    Reachable.registerStep initState "alice" "pw1" Reachable.init
  have h2 := Reachable.createStep _ "Soup" "" "" "" "" h1
  have h3 : Reachable ⟨⟨[⟨1, "alice", generate_password_hash "pw1"⟩],
      [⟨1, 1, "Soup", "", "", "", "", 0⟩], 2, 2, 1⟩, some 1⟩ := by
    have heq : (⟨⟨[⟨1, "alice", generate_password_hash "pw1"⟩],
        [⟨1, 1, "Soup", "", "", "", "", 0⟩], 2, 2, 1⟩, some 1⟩ : AppState) =
        ⟨(recipeNewPost (registerPost initState.db initState.sess "alice" "pw1").db
            (registerPost initState.db initState.sess "alice" "pw1").sess
            "Soup" "" "" "" "").db,
          (recipeNewPost (registerPost initState.db initState.sess "alice" "pw1").db
            (registerPost initState.db initState.sess "alice" "pw1").sess
            "Soup" "" "" "" "").sess⟩ := by decide
    rw [heq]
    exact h2
  exact ⟨h3, recipe_invariant_reachable _ h3⟩

/-- Counterexample to C7 as stated: the owner of recipe 1 submits a
successful update whose description is " x "; the stored description is
the trimmed "x", not the submitted value. -/
theorem update_submitted_values_counterexample :
    (recipeEditPost dbW (some 1) 1 "Soup" " x " "i" "s" "p").flash =
      ("Recipe updated.", "success") ∧
    (recipeEditPost dbW (some 1) 1 "Soup" " x " "i" "s" "p").db.recipes =
      [⟨1, 1, "Soup", "x", "i", "s", "p", 0⟩] ∧
    ("x" : String) ≠ " x " := by decide

/-- C7 (amended): a successful owner update with a non-empty post-trim
title overwrites all five mutable fields of the stored row with the
submitted values trimmed of leading/trailing whitespace — every field is
replaced unconditionally, including being blanked when the caller
submits an empty value; no partial-field merge occurs. -/
theorem update_overwrites_all_fields (db : DB) (uid rid : Nat) (r : Recipe)
    (t d ing ins pt : String)
    (hfind : db.recipes.find? (fun s => s.id == rid) = some r)
    (hown : r.user_id = uid) (ht : pyStrip t ≠ "") :
    (recipeEditPost db (some uid) rid t d ing ins pt).flash =
      ("Recipe updated.", "success") ∧
    (∃ s ∈ (recipeEditPost db (some uid) rid t d ing ins pt).db.recipes,
      s.id = rid) ∧
    ∀ s ∈ (recipeEditPost db (some uid) rid t d ing ins pt).db.recipes,
      s.id = rid →
        s.title = pyStrip t ∧ s.description = pyStrip d ∧
        s.ingredients = pyStrip ing ∧ s.instructions = pyStrip ins ∧
        s.prep_time = pyStrip pt := by
  have hrid : (r.id == rid) = true := by
    have h := List.find?_some hfind
    simpa using h
  have hres := hfind
  simp only [recipeEditPost, hfind]
  rw [if_neg (by simp [hown])]
  rw [if_neg ht]
  refine ⟨rfl, ?_, ?_⟩
  · refine ⟨_, List.mem_map.mpr ⟨r, List.mem_of_find?_eq_some hfind, rfl⟩, ?_⟩
    simp [hrid]
    exact beq_iff_eq.mp hrid
  · intro s hs hsid
    obtain ⟨s0, hs0, rfl⟩ := List.mem_map.mp hs
    by_cases hid : (s0.id == rid) = true
    · simp [hid]
    · rw [if_neg hid] at hsid ⊢
      exact absurd (beq_iff_eq.mpr hsid) hid

/-- Witness for C7 (amended): the owner updates recipe 1 with padded
field values; the stored fields are the trimmed values. -/
theorem update_overwrites_all_fields_witness :
    dbW.recipes.find? (fun s => s.id == 1) =
      some ⟨1, 1, "Soup", "", "", "", "", 0⟩ ∧
    (⟨1, 1, "Soup", "", "", "", "", 0⟩ : Recipe).user_id = 1 ∧
    pyStrip " Stew " ≠ "" ∧
    ((recipeEditPost dbW (some 1) 1 " Stew " " x " "" "y " "").flash =
      ("Recipe updated.", "success") ∧
    (∃ s ∈ (recipeEditPost dbW (some 1) 1 " Stew " " x " "" "y " "").db.recipes,
      s.id = 1) ∧
    ∀ s ∈ (recipeEditPost dbW (some 1) 1 " Stew " " x " "" "y " "").db.recipes,
      s.id = 1 →
        s.title = pyStrip " Stew " ∧ s.description = pyStrip " x " ∧
        s.ingredients = pyStrip "" ∧ s.instructions = pyStrip "y " ∧
        s.prep_time = pyStrip "") :=
  ⟨by decide, by decide, by decide,
    update_overwrites_all_fields dbW 1 1 ⟨1, 1, "Soup", "", "", "", "", 0⟩
      " Stew " " x " "" "y " "" (by decide) (by decide) (by decide)⟩

/-- C9: on a well-formed database the listing returns every recipe,
joined with its owner's username, and any recipe with a strictly later
creation time appears strictly earlier in the returned sequence. -/
theorem listing_complete_and_newest_first (db : DB) (hinv : dbInv db)
    (A B : Recipe) (_hA : A ∈ db.recipes) (_hB : B ∈ db.recipes)
    (hlt : A.created_at < B.created_at) :
    (∀ r ∈ db.recipes, ∃ x ∈ db.users,
        x.id = r.user_id ∧ (r, x.username) ∈ recipesListQuery db) ∧
    ∀ (i j : Fin (recipesListQuery db).length),
      ((recipesListQuery db).get i).1 = B →
      ((recipesListQuery db).get j).1 = A → i < j := by
  obtain ⟨hown, -, -, -, hids, -⟩ := hinv
  constructor
  · intro r hr
    obtain ⟨x, hx, hxid⟩ := hown r hr
    refine ⟨x, hx, hxid, ?_⟩
    have hmem := mem_joinRows db hids r x hr hx hxid
    exact ((List.perm_insertionSort listingRel (joinRows db)).mem_iff).mpr hmem
  · intro i j hiB hjA
    have hsorted : (recipesListQuery db).Sorted listingRel :=
      List.sorted_insertionSort listingRel (joinRows db)
    rcases lt_trichotomy i j with h | h | h
    · exact h
    · exfalso
      subst h
      have hBA : A = B := hjA.symm.trans hiB
      rw [hBA] at hlt
      exact Nat.lt_irrefl _ hlt
    · exfalso
      have hrel : ((recipesListQuery db).get i).1.created_at ≤
          ((recipesListQuery db).get j).1.created_at :=
        hsorted.rel_get_of_lt h
      rw [hiB, hjA] at hrel
      exact Nat.lt_irrefl _ (Nat.lt_of_lt_of_le hlt hrel)

/-- Witness for C9: in `dbW2`, recipe "Stew" (created at time 1) is
listed before recipe "Soup" (created at time 0). -/
theorem listing_complete_and_newest_first_witness :
    dbInv dbW2 ∧
    (⟨1, 1, "Soup", "", "", "", "", 0⟩ : Recipe) ∈ dbW2.recipes ∧
    (⟨2, 2, "Stew", "", "", "", "", 1⟩ : Recipe) ∈ dbW2.recipes ∧
    (0 : Nat) < 1 ∧
    ((∀ r ∈ dbW2.recipes, ∃ x ∈ dbW2.users,
        x.id = r.user_id ∧ (r, x.username) ∈ recipesListQuery dbW2) ∧
    ∀ (i j : Fin (recipesListQuery dbW2).length),
      ((recipesListQuery dbW2).get i).1 = ⟨2, 2, "Stew", "", "", "", "", 1⟩ →
      ((recipesListQuery dbW2).get j).1 = ⟨1, 1, "Soup", "", "", "", "", 0⟩ →
      i < j) :=
  ⟨by decide, by decide, by decide, by decide,
    listing_complete_and_newest_first dbW2 (by decide)
      ⟨1, 1, "Soup", "", "", "", "", 0⟩ ⟨2, 2, "Stew", "", "", "", "", 1⟩
      (by decide) (by decide) (by decide)⟩

/-- C10: registration stores the trimmed username but hashes the
password exactly as submitted; afterwards, login with any username that
trims to the registered one succeeds with the exact password and fails
with any other password — in particular one differing only in
surrounding whitespace. -/
theorem password_verbatim_username_trimmed (db : DB) (sess s2 : Option Nat)
    (u u2 p p' : String)
    (hfree : db.users.find? (fun x => x.username == pyStrip u) = none)
    (hu : pyStrip u ≠ "") (hp : p ≠ "")
    (hu2 : pyStrip u2 = pyStrip u) (hp' : p' ≠ p) :
    (registerPost db sess u p).db.users =
      db.users ++ [⟨db.nextUserId, pyStrip u, generate_password_hash p⟩] ∧
    loginPost (registerPost db sess u p).db s2 u2 p =
      ⟨("Logged in successfully.", "success"), Page.home,
        (registerPost db sess u p).db, some db.nextUserId⟩ ∧
    loginPost (registerPost db sess u p).db s2 u2 p' =
      ⟨("Invalid username or password.", "danger"), Page.loginPage none,
        (registerPost db sess u p).db, s2⟩ := by
  have hreg : (registerPost db sess u p).db =
      ⟨db.users ++ [⟨db.nextUserId, pyStrip u, generate_password_hash p⟩],
        db.recipes, db.nextUserId + 1, db.nextRecipeId, db.clock⟩ := by
    simp only [registerPost]
    rw [if_neg (by simp [hu, hp])]
    rw [if_neg (by simp [hfree])]
  have hfind2 : (registerPost db sess u p).db.users.find?
      (fun x => x.username == pyStrip u2) =
      some ⟨db.nextUserId, pyStrip u, generate_password_hash p⟩ := by
    rw [hreg, hu2]
    show (db.users ++ _).find? _ = _
    rw [List.find?_append, hfree]
    simp
  have hchk : check_password_hash (generate_password_hash p) p' ≠ true :=
    fun h => hp' ((check_password_hash_iff p p').mp h).symm
  refine ⟨by rw [hreg], ?_, ?_⟩
  · simp only [loginPost, hfind2]
    rw [if_pos ((check_password_hash_iff p p).mpr rfl)]
  · simp only [loginPost, hfind2]
    rw [if_neg hchk]

/-- Witness for C10: registering " carol "/"pw3" stores username
"carol" and the hash of "pw3" verbatim; login as "carol" succeeds with
"pw3" and fails with " pw3". -/
theorem password_verbatim_username_trimmed_witness :
    dbW.users.find? (fun x => x.username == pyStrip " carol ") = none ∧
    pyStrip " carol " ≠ "" ∧ ("pw3" : String) ≠ "" ∧
    pyStrip "carol" = pyStrip " carol " ∧ (" pw3" : String) ≠ "pw3" ∧
    ((registerPost dbW none " carol " "pw3").db.users =
      dbW.users ++ [⟨dbW.nextUserId, pyStrip " carol ",
        generate_password_hash "pw3"⟩] ∧
    loginPost (registerPost dbW none " carol " "pw3").db none "carol" "pw3" =
      ⟨("Logged in successfully.", "success"), Page.home,
        (registerPost dbW none " carol " "pw3").db, some dbW.nextUserId⟩ ∧
    loginPost (registerPost dbW none " carol " "pw3").db none "carol" " pw3" =
      ⟨("Invalid username or password.", "danger"), Page.loginPage none,
        (registerPost dbW none " carol " "pw3").db, none⟩) :=
  ⟨by decide, by decide, by decide, by decide, by decide,
    password_verbatim_username_trimmed dbW none none " carol " "carol"
      "pw3" " pw3" (by decide) (by decide) (by decide) (by decide) (by decide)⟩
